import Mathlib

/-!
Verification of the Q-learning policy engine of StockSageBot (src/app.py).

The engine consists of three functions over a module-level table `q_table`:
  * `get_state (score, price_change) = (round(score, 1), round(price_change, 2))`
  * `choose_action state`: epsilon-greedy selection,
      `if random.uniform(0,1) < epsilon or state not in q_table: random.choice(actions)
       else: max(q_table[state], key=q_table[state].get)`
  * `update_q state action reward`: one-step TD update,
      inserts an all-zero row if absent, then
      `q_table[state][action] = old + alpha * (reward + gamma * future - old)`
      with `future = max(q_table[state].values())`.

Floats are modelled as rationals; Python's `round` (round-half-to-even after
scaling by a power of ten) is modelled on ℚ.  The global `q_table` dict is
modelled as an association list in insertion order; the randomness consumed by
`choose_action` (the uniform draw and the uniform index of `random.choice`) is
passed as explicit arguments.  Rows created by the code are always complete
(`{a: 0 for a in actions}`), so a row is a record of three rational values in
the fixed order Buy, Sell, Hold.
-/

namespace StockSage

/-- The fixed ordered action set `actions = ['Buy', 'Sell', 'Hold']`. -/
inductive Action where
  | Buy
  | Sell
  | Hold
deriving DecidableEq, Repr

/-- One row of `q_table`: the dict `{'Buy': _, 'Sell': _, 'Hold': _}` created by
`{a: 0 for a in actions}` and updated in place, so its iteration order is
always Buy, Sell, Hold. -/
structure QRow where
  buy : ℚ
  sell : ℚ
  hold : ℚ
deriving DecidableEq, Repr

/-- Read `row[action]`. -/
def QRow.get (row : QRow) : Action → ℚ
  | .Buy => row.buy
  | .Sell => row.sell
  | .Hold => row.hold

/-- Write `row[action] = v`. -/
def QRow.set (row : QRow) : Action → ℚ → QRow
  | .Buy, v => { row with buy := v }
  | .Sell, v => { row with sell := v }
  | .Hold, v => { row with hold := v }

/-- The fresh row `{a: 0 for a in actions}`. -/
def zeroRow : QRow := ⟨0, 0, 0⟩

/-- A state key: the discretized pair produced by `get_state`. -/
abbrev StateKey : Type := ℚ × ℚ

/-- The table `q_table`: a Python dict from state keys to rows, modelled as an
association list in insertion order with distinct keys looked up from the
front. -/
abbrev QTable : Type := List (StateKey × QRow)

/-- Dict lookup: `q_table[state]` when present, `none` when
`state not in q_table`. -/
def findRow : QTable → StateKey → Option QRow
  | [], _ => none
  | (k, v) :: rest, s => if k = s then some v else findRow rest s

/-- Dict store `q_table[state] = row`: overwrite in place when the key is
present, append at the end (dict insertion order) when it is not. -/
def setRow : QTable → StateKey → QRow → QTable
  | [], s, row => [(s, row)]
  | (k, v) :: rest, s, row =>
      if k = s then (k, row) :: rest else (k, v) :: setRow rest s row

/-- `if state not in q_table: q_table[state] = {a: 0 for a in actions}`. -/
def ensureRow (q : QTable) (s : StateKey) : QTable :=
  match findRow q s with
  | some _ => q
  | none => q ++ [(s, zeroRow)]

/-- `max(q_table[state].values())`: maximum of the three values of a row. -/
def rowMax (row : QRow) : ℚ := max row.buy (max row.sell row.hold)

/-- Learning rate `alpha = 0.1` (module constant of app.py). -/
def alpha : ℚ := 1 / 10

/-- Discount factor `gamma = 0.9` (module constant of app.py). -/
def gamma : ℚ := 9 / 10

/-- Exploration probability `epsilon = 0.2` (module constant of app.py). -/
def epsilon : ℚ := 1 / 5

/-- Python's built-in `round` to an integer, round-half-to-even, on ℚ. -/
def roundHalfEven (x : ℚ) : ℤ :=
  if x - ⌊x⌋ < 1 / 2 then ⌊x⌋
  else if 1 / 2 < x - ⌊x⌋ then ⌊x⌋ + 1
  else if ⌊x⌋ % 2 = 0 then ⌊x⌋ else ⌊x⌋ + 1

/-- Python's `round(x, n)`: round to `n` decimal places. -/
def roundTo (n : ℕ) (x : ℚ) : ℚ := (roundHalfEven (x * 10 ^ n) : ℚ) / 10 ^ n

/-- `get_state(score, price_change) = (round(score, 1), round(price_change, 2))`
(app.py lines 21-22). -/
def get_state (score : ℚ) (price_change : ℚ) : StateKey :=
  (roundTo 1 score, roundTo 2 price_change)

/-- The value `random.choice(actions)` picks when the uniform index is `idx`. -/
def randomAction (idx : Fin 3) : Action :=
  if idx.val = 0 then .Buy else if idx.val = 1 then .Sell else .Hold

/-- `max(q_table[state], key=q_table[state].get)` (app.py line 27): Python's
`max` scans the keys in dict order Buy, Sell, Hold and keeps the first one
whose value is not strictly exceeded later, i.e. the first maximal action. -/
def greedyAction (row : QRow) : Action :=
  if row.sell > row.buy then
    if row.hold > row.sell then .Hold else .Sell
  else
    if row.hold > row.buy then .Hold else .Buy

/-- `choose_action(state)` (app.py lines 24-27).  The uniform draw
`random.uniform(0, 1)` is the argument `r` and the index consumed by
`random.choice` is `idx`; the module constant `epsilon` is the argument `eps`.
The result pairs the returned action with the table after the call (the code
performs no assignment to `q_table`, so the table is returned as received);
`none` would model an uncaught `KeyError` on `q_table[state]`. -/
def choose_action (eps r : ℚ) (idx : Fin 3) (q_table : QTable) (state : StateKey) :
    Option (Action × QTable) :=
  if r < eps ∨ findRow q_table state = none then
    some (randomAction idx, q_table)
  else
    (findRow q_table state).map (fun row => (greedyAction row, q_table))

/-- `update_q(state, action, reward)` (app.py lines 29-34), with the module
constants `alpha`, `gamma` passed explicitly:
```
if state not in q_table:
    q_table[state] = {a: 0 for a in actions}
old = q_table[state][action]
future = max(q_table[state].values())
q_table[state][action] = old + alpha * (reward + gamma * future - old)
``` -/
def update_q (a g : ℚ) (q_table : QTable) (state : StateKey) (action : Action)
    (reward : ℚ) : QTable :=
  let q1 := ensureRow q_table state
  let row := (findRow q1 state).getD zeroRow
  let old := row.get action
  let future := rowMax row
  setRow q1 state (row.set action (old + a * (reward + g * future - old)))

/-- The caller-side reward rule (app.py lines 89 and 107):
`reward = price_change if action == 'Buy' else -price_change if action == 'Sell' else 0`. -/
def compute_reward (action : Action) (price_change : ℚ) : ℚ :=
  match action with
  | .Buy => price_change
  | .Sell => -price_change
  | .Hold => 0

/-- Spec-side characterization of the exploitation choice: the first action in
the fixed order Buy, Sell, Hold whose value attains the row maximum. -/
def firstMaxAction (row : QRow) : Action :=
  if row.buy = rowMax row then .Buy
  else if row.sell = rowMax row then .Sell
  else .Hold

/-- Value of `(state, action)` in the table, reading absent rows as zero. -/
def getQ (q : QTable) (s : StateKey) (a : Action) : ℚ :=
  ((findRow q s).getD zeroRow).get a

/-! ### Association-list laws -/

lemma findRow_append (q l : QTable) (s : StateKey) :
    findRow (q ++ l) s =
      match findRow q s with
      | some v => some v
      | none => findRow l s := by
  induction q with
  | nil => simp [findRow]
  | cons kv rest ih =>
      obtain ⟨k, v⟩ := kv
      by_cases h : k = s <;> simp [findRow, h, ih]

lemma findRow_setRow_self (q : QTable) (s : StateKey) (row : QRow) :
    findRow (setRow q s row) s = some row := by
  induction q with
  | nil => simp [findRow, setRow]
  | cons kv rest ih =>
      obtain ⟨k, v⟩ := kv
      by_cases h : k = s <;> simp [findRow, setRow, h, ih]

lemma findRow_setRow_ne (q : QTable) (s t : StateKey) (row : QRow) (h : t ≠ s) :
    findRow (setRow q s row) t = findRow q t := by
  induction q with
  | nil => simp [findRow, setRow, Ne.symm h]
  | cons kv rest ih =>
      obtain ⟨k, v⟩ := kv
      by_cases hk : k = s
      · subst hk
        simp [findRow, setRow, Ne.symm h]
      · by_cases ht : k = t
        · subst ht
          simp [findRow, setRow, hk]
        · simp [findRow, setRow, hk, ht, ih]

lemma findRow_ensureRow_self (q : QTable) (s : StateKey) :
    findRow (ensureRow q s) s = some ((findRow q s).getD zeroRow) := by
  unfold ensureRow
  cases h : findRow q s with
  | some row => simp [h]
  | none => simp [findRow_append, h, findRow]

lemma findRow_ensureRow_ne (q : QTable) (s t : StateKey) (h : t ≠ s) :
    findRow (ensureRow q s) t = findRow q t := by
  unfold ensureRow
  cases hs : findRow q s with
  | some row => rfl
  | none =>
      rw [findRow_append]
      cases ht : findRow q t with
      | some row => rfl
      | none => simp [findRow, Ne.symm h]

/-- The row `update_q` writes for the referenced state: the prior row (the
all-zero row when the state was absent) with the entry of the taken action
replaced by `old + a * (reward + g * future - old)`. -/
lemma update_q_findRow_self (a g : ℚ) (q : QTable) (s : StateKey) (act : Action)
    (reward : ℚ) :
    findRow (update_q a g q s act reward) s =
      some (QRow.set ((findRow q s).getD zeroRow) act
        (QRow.get ((findRow q s).getD zeroRow) act +
          a * (reward + g * rowMax ((findRow q s).getD zeroRow) -
            QRow.get ((findRow q s).getD zeroRow) act))) := by
  unfold update_q
  rw [findRow_setRow_self, findRow_ensureRow_self]
  rfl

/-- `update_q` leaves every other state's row untouched. -/
lemma update_q_findRow_ne (a g : ℚ) (q : QTable) (s t : StateKey) (act : Action)
    (reward : ℚ) (h : t ≠ s) :
    findRow (update_q a g q s act reward) t = findRow q t := by
  unfold update_q
  rw [findRow_setRow_ne _ _ _ _ h, findRow_ensureRow_ne _ _ _ h]

/-! ### Row laws -/

lemma QRow.get_zeroRow (act : Action) : zeroRow.get act = 0 := by
  cases act <;> rfl

lemma rowMax_zeroRow : rowMax zeroRow = 0 := by
  simp [rowMax, zeroRow]

lemma QRow.set_get_self (row : QRow) (act : Action) :
    row.set act (row.get act) = row := by
  cases act <;> rfl

lemma QRow.get_set_self (row : QRow) (act : Action) (v : ℚ) :
    (row.set act v).get act = v := by
  cases act <;> rfl

lemma QRow.get_set_ne (row : QRow) (act b : Action) (v : ℚ) (h : b ≠ act) :
    (row.set act v).get b = row.get b := by
  cases act <;> cases b <;> first | rfl | exact absurd rfl h

lemma QRow.set_zero_zeroRow (act : Action) : zeroRow.set act 0 = zeroRow := by
  cases act <;> rfl

/-! ### The greedy scan of Python's `max` picks the first maximal action -/

lemma greedyAction_eq_firstMaxAction (row : QRow) :
    greedyAction row = firstMaxAction row := by
  obtain ⟨a, b, c⟩ := row
  show (if b > a then if c > b then Action.Hold else Action.Sell
        else if c > a then Action.Hold else Action.Buy) =
      (if a = max a (max b c) then Action.Buy
       else if b = max a (max b c) then Action.Sell else Action.Hold)
  rcases lt_or_le a b with hba | hba
  · rcases lt_or_le b c with hcb | hcb
    · have hac : a < c := lt_trans hba hcb
      have hm : max a (max b c) = c := by
        rw [max_eq_right hcb.le, max_eq_right hac.le]
      rw [if_pos hba, if_pos hcb, hm, if_neg (ne_of_lt hac), if_neg (ne_of_lt hcb)]
    · have hm : max a (max b c) = b := by
        rw [max_eq_left hcb, max_eq_right hba.le]
      rw [if_pos hba, if_neg (not_lt.mpr hcb), hm, if_neg (ne_of_lt hba), if_pos rfl]
  · rcases lt_or_le a c with hca | hca
    · have hbc : b < c := lt_of_le_of_lt hba hca
      have hm : max a (max b c) = c := by
        rw [max_eq_right hbc.le, max_eq_right hca.le]
      rw [if_neg (not_lt.mpr hba), if_pos hca, hm, if_neg (ne_of_lt hca),
        if_neg (ne_of_lt hbc)]
    · have hm : max a (max b c) = a := max_eq_left (max_le hba hca)
      rw [if_neg (not_lt.mpr hba), if_neg (not_lt.mpr hca), hm, if_pos rfl]

lemma firstMaxAction_get (row : QRow) :
    QRow.get row (firstMaxAction row) = rowMax row := by
  obtain ⟨a, b, c⟩ := row
  unfold firstMaxAction rowMax
  split_ifs with h1 h2
  · exact h1
  · exact h2
  · rcases max_choice a (max b c) with h | h
    · exact absurd h.symm h1
    · rcases max_choice b c with h3 | h3
      · exact absurd (h.trans h3).symm h2
      · show c = max a (max b c)
        rw [h, h3]

lemma firstMaxAction_tie (v : ℚ) : firstMaxAction ⟨v, v, v⟩ = Action.Buy := by
  simp [firstMaxAction, rowMax]

/-! ### Rounding bounds -/

lemma roundHalfEven_dist (x : ℚ) : |(roundHalfEven x : ℚ) - x| ≤ 1 / 2 := by
  have hf1 : ((⌊x⌋ : ℤ) : ℚ) ≤ x := Int.floor_le x
  have hf2 : x < ((⌊x⌋ : ℤ) : ℚ) + 1 := Int.lt_floor_add_one x
  unfold roundHalfEven
  split_ifs with h1 h2 h3 <;> rw [abs_le] <;> constructor <;> push_cast <;>
    push_neg at * <;> linarith

lemma roundTo_one_dist (x : ℚ) : |roundTo 1 x - x| ≤ 1 / 20 := by
  have h := roundHalfEven_dist (x * 10 ^ 1)
  unfold roundTo
  rw [abs_le] at h ⊢
  norm_num at h ⊢
  constructor <;> linarith

lemma roundTo_two_dist (x : ℚ) : |roundTo 2 x - x| ≤ 1 / 200 := by
  have h := roundHalfEven_dist (x * 10 ^ 2)
  unfold roundTo
  rw [abs_le] at h ⊢
  norm_num at h ⊢
  constructor <;> linarith

/-! ### Claim theorems -/

/-- Claim C1: for every table, state, action and reward, `update_q` inserts an
all-zero row for the state if absent and then sets the entry of the taken
action to `old + alpha * (reward + gamma * future - old)`, where `old` is the
prior entry (0 for a fresh row) and `future` is the maximum over the three
values of that same state's row — not a successor state's row — with the
default constants `alpha = 0.1` and `gamma = 0.9`. -/
theorem update_q_td_formula (q : QTable) (s : StateKey) (act : Action)
    (reward : ℚ) :
    findRow (update_q alpha gamma q s act reward) s =
      some (QRow.set ((findRow q s).getD zeroRow) act
        (QRow.get ((findRow q s).getD zeroRow) act +
          alpha * (reward + gamma * rowMax ((findRow q s).getD zeroRow) -
            QRow.get ((findRow q s).getD zeroRow) act))) ∧
    alpha = 1 / 10 ∧ gamma = 9 / 10 :=
  ⟨update_q_findRow_self alpha gamma q s act reward, rfl, rfl⟩

/-- Claim C2: with the exploration branch not firing (`epsilon = 0` and a
nonnegative uniform draw) and the state present, `choose_action` returns,
independently of the random arguments, the first action attaining the row
maximum in the fixed order Buy, Sell, Hold; that action attains the row
maximum, and when all three values are equal it is Buy. -/
theorem choose_action_exploit (r : ℚ) (idx : Fin 3) (q : QTable) (s : StateKey)
    (row : QRow) (hrow : findRow q s = some row) (hr : 0 ≤ r) :
    choose_action 0 r idx q s = some (firstMaxAction row, q) ∧
    QRow.get row (firstMaxAction row) = rowMax row ∧
    (row.buy = row.sell → row.sell = row.hold → firstMaxAction row = Action.Buy) := by
  refine ⟨?_, firstMaxAction_get row, ?_⟩
  · unfold choose_action
    rw [if_neg, hrow]
    · simp [greedyAction_eq_firstMaxAction]
    · rw [hrow]
      simp [not_lt.mpr hr]
  · intro h1 h2
    obtain ⟨a, b, c⟩ := row
    simp only at h1 h2
    subst h1
    subst h2
    exact firstMaxAction_tie a

/-- Witness for C2 at the concrete table `[((0, 0), ⟨5, 5, 5⟩)]`, draw 0 and
index 0. -/
theorem choose_action_exploit_witness :
    findRow [(((0 : ℚ), (0 : ℚ)), (⟨5, 5, 5⟩ : QRow))] ((0 : ℚ), (0 : ℚ)) =
        some (⟨5, 5, 5⟩ : QRow) ∧
    (0 : ℚ) ≤ 0 ∧
    (choose_action 0 0 (0 : Fin 3) [(((0 : ℚ), (0 : ℚ)), (⟨5, 5, 5⟩ : QRow))]
          ((0 : ℚ), (0 : ℚ)) =
        some (firstMaxAction ⟨5, 5, 5⟩, [(((0 : ℚ), (0 : ℚ)), (⟨5, 5, 5⟩ : QRow))]) ∧
      QRow.get (⟨5, 5, 5⟩ : QRow) (firstMaxAction ⟨5, 5, 5⟩) = rowMax ⟨5, 5, 5⟩ ∧
      ((5 : ℚ) = 5 → (5 : ℚ) = 5 → firstMaxAction ⟨5, 5, 5⟩ = Action.Buy)) :=
  ⟨by simp [findRow], le_refl 0,
    choose_action_exploit 0 (0 : Fin 3) _ _ ⟨5, 5, 5⟩ (by simp [findRow]) (le_refl 0)⟩

/-- Claim C3: for a state absent from the table, `choose_action` never fails:
it short-circuits to the exploration branch for every `epsilon` and every
uniform draw, returning the randomly indexed action and leaving the table as
received; the returned action is one of the three actions. -/
theorem choose_action_absent_safe (eps r : ℚ) (idx : Fin 3) (q : QTable)
    (s : StateKey) (h : findRow q s = none) :
    choose_action eps r idx q s = some (randomAction idx, q) ∧
    (randomAction idx = Action.Buy ∨ randomAction idx = Action.Sell ∨
      randomAction idx = Action.Hold) := by
  constructor
  · unfold choose_action
    rw [if_pos (Or.inr h)]
  · cases hA : randomAction idx <;> simp

/-- Witness for C3 on the empty table with `epsilon = 3`, draw 0 and index 2. -/
theorem choose_action_absent_safe_witness :
    findRow ([] : QTable) ((0 : ℚ), (0 : ℚ)) = none ∧
    (choose_action 3 0 (2 : Fin 3) ([] : QTable) ((0 : ℚ), (0 : ℚ)) =
        some (randomAction (2 : Fin 3), ([] : QTable)) ∧
      (randomAction (2 : Fin 3) = Action.Buy ∨
        randomAction (2 : Fin 3) = Action.Sell ∨
        randomAction (2 : Fin 3) = Action.Hold)) :=
  ⟨rfl, choose_action_absent_safe 3 0 (2 : Fin 3) [] ((0 : ℚ), (0 : ℚ)) rfl⟩

/-- Claim C4 counterexample: a single `choose_action` call on the
previously-absent state `(0, 0)` of the empty table completes, yet the table
after the call still has no row for that state — `choose_action` does not
insert the row the claim asserts. -/
theorem choose_action_creates_no_row :
    (choose_action epsilon (1 / 2) (0 : Fin 3) ([] : QTable)
          ((0 : ℚ), (0 : ℚ))).map
        (fun out => findRow out.2 ((0 : ℚ), (0 : ℚ))) =
      some none := by
  norm_num [choose_action, epsilon, findRow]

/-- Claim C4 (amended): for every state previously absent from the table,
after a single `update_q` call referencing that state the table contains a
complete row for it — the taken action holds `alpha * reward` and every other
action entry is 0; `choose_action` creates no rows. -/
theorem update_q_row_completeness (q : QTable) (s : StateKey) (act b : Action)
    (reward : ℚ) (h : findRow q s = none) (hb : b ≠ act) :
    findRow (update_q alpha gamma q s act reward) s =
      some (QRow.set zeroRow act (alpha * reward)) ∧
    QRow.get (QRow.set zeroRow act (alpha * reward)) b = 0 := by
  constructor
  · rw [update_q_findRow_self, h]
    simp only [Option.getD_none]
    rw [QRow.get_zeroRow, rowMax_zeroRow]
    have hv : (0 : ℚ) + alpha * (reward + gamma * 0 - 0) = alpha * reward := by
      ring
    rw [hv]
  · rw [QRow.get_set_ne _ _ _ _ hb, QRow.get_zeroRow]

/-- Witness for the amended C4 on the empty table with action Buy, other
action Sell, reward 1. -/
theorem update_q_row_completeness_witness :
    findRow ([] : QTable) ((0 : ℚ), (0 : ℚ)) = none ∧
    Action.Sell ≠ Action.Buy ∧
    (findRow (update_q alpha gamma [] ((0 : ℚ), (0 : ℚ)) Action.Buy 1)
          ((0 : ℚ), (0 : ℚ)) =
        some (QRow.set zeroRow Action.Buy (alpha * 1)) ∧
      QRow.get (QRow.set zeroRow Action.Buy (alpha * 1)) Action.Sell = 0) :=
  ⟨rfl, by simp,
    update_q_row_completeness [] ((0 : ℚ), (0 : ℚ)) Action.Buy Action.Sell 1 rfl
      (by simp)⟩

/-- Claim C5: `choose_action` has no side effects — for every table, state,
epsilon and random arguments the call succeeds and the table it passes back is
exactly the table it received; in particular it creates no rows. -/
theorem choose_action_no_side_effects (eps r : ℚ) (idx : Fin 3) (q : QTable)
    (s : StateKey) :
    (choose_action eps r idx q s).map Prod.snd = some q := by
  unfold choose_action
  split_ifs with h
  · rfl
  · push_neg at h
    obtain ⟨-, h2⟩ := h
    cases hrow : findRow q s with
    | none => exact absurd hrow h2
    | some row => simp

/-- Claim C6: `get_state` returns exactly
`(round(score, 1), round(price_change, 2))` for every pair of rationals —
each component is an integer multiple of the respective precision and within
half an ulp of the input — with no side effects and deterministically. -/
theorem get_state_spec (score price_change : ℚ) :
    get_state score price_change = (roundTo 1 score, roundTo 2 price_change) ∧
    (∃ k : ℤ, (get_state score price_change).1 = (k : ℚ) / 10) ∧
    |(get_state score price_change).1 - score| ≤ 1 / 20 ∧
    (∃ k : ℤ, (get_state score price_change).2 = (k : ℚ) / 100) ∧
    |(get_state score price_change).2 - price_change| ≤ 1 / 200 ∧
    get_state score price_change = get_state score price_change := by
  refine ⟨rfl, ⟨roundHalfEven (score * 10 ^ 1), ?_⟩, roundTo_one_dist score,
    ⟨roundHalfEven (price_change * 10 ^ 2), ?_⟩, roundTo_two_dist price_change,
    rfl⟩
  · norm_num [get_state, roundTo]
  · norm_num [get_state, roundTo]

/-- Claim C7: the end-to-end scenario — `get_state 0.42 0.0137` yields the
state key `(0.4, 0.01)`; on the empty table `choose_action` on that key takes
the exploration branch without failing; and after `update_q` with action Buy
and reward `0.0137` the row holds Buy `= 0.00137`, Sell `= 0`, Hold `= 0`. -/
theorem end_to_end_scenario :
    get_state (42 / 100) (137 / 10000) = ((2 / 5 : ℚ), (1 / 100 : ℚ)) ∧
    choose_action epsilon (1 / 2) (0 : Fin 3) ([] : QTable)
        ((2 / 5 : ℚ), (1 / 100 : ℚ)) =
      some (Action.Buy, ([] : QTable)) ∧
    findRow (update_q alpha gamma [] ((2 / 5 : ℚ), (1 / 100 : ℚ)) Action.Buy
          (137 / 10000))
        ((2 / 5 : ℚ), (1 / 100 : ℚ)) =
      some ⟨137 / 100000, 0, 0⟩ := by
  refine ⟨?_, ?_, ?_⟩
  · norm_num [get_state, roundTo, roundHalfEven]
  · norm_num [choose_action, epsilon, findRow, randomAction]
  · norm_num [update_q, ensureRow, findRow, setRow, zeroRow, rowMax, alpha,
      gamma, QRow.get, QRow.set]

/-- Single `update_q` call with learning rate 0 changes no value. -/
lemma getQ_update_zero_alpha (g : ℚ) (q : QTable) (s : StateKey) (act : Action)
    (reward : ℚ) (t : StateKey) (b : Action) :
    getQ (update_q 0 g q s act reward) t b = getQ q t b := by
  by_cases h : t = s
  · subst h
    simp [getQ, update_q_findRow_self, QRow.set_get_self]
  · unfold getQ
    rw [update_q_findRow_ne _ _ _ _ _ _ _ h]

/-- Any finite sequence of `update_q` calls with learning rate 0, folded over
the table. -/
def applyUpdates (g : ℚ) (updates : List (StateKey × Action × ℚ))
    (q : QTable) : QTable :=
  updates.foldl (fun t u => update_q 0 g t u.1 u.2.1 u.2.2) q

/-- Claim C8: with learning rate `alpha = 0`, repeated `update_q` calls never
change any value — every entry of the table (absent rows read as zero) equals
its value before the calls. -/
theorem update_q_zero_alpha_fixed (g : ℚ)
    (updates : List (StateKey × Action × ℚ)) (q : QTable) (t : StateKey)
    (b : Action) :
    getQ (applyUpdates g updates q) t b = getQ q t b := by
  induction updates generalizing q with
  | nil => rfl
  | cons u rest ih =>
      have hstep : applyUpdates g (u :: rest) q
          = applyUpdates g rest (update_q 0 g q u.1 u.2.1 u.2.2) := rfl
      rw [hstep, ih, getQ_update_zero_alpha]

/-- Claim C9: the caller-side reward rule — the reward passed to `update_q`
is `price_change` for Buy, `-price_change` for Sell and 0 for Hold. -/
theorem compute_reward_rule (price_change : ℚ) :
    compute_reward Action.Buy price_change = price_change ∧
    compute_reward Action.Sell price_change = -price_change ∧
    compute_reward Action.Hold price_change = 0 :=
  ⟨rfl, rfl, rfl⟩

/-- Claim C10: zero fixed point — for a state whose row is absent or all-zero,
an `update_q` call with reward 0 (any learning rate, any discount) leaves the
state's row all-zero and every other state's row untouched: the only possible
change is the insertion of the all-zero row itself. -/
theorem update_q_zero_fixed_point (a g : ℚ) (q : QTable) (s t : StateKey)
    (act : Action) (h : (findRow q s).getD zeroRow = zeroRow) (hne : t ≠ s) :
    findRow (update_q a g q s act 0) s = some zeroRow ∧
    findRow (update_q a g q s act 0) t = findRow q t := by
  constructor
  · rw [update_q_findRow_self, h, QRow.get_zeroRow, rowMax_zeroRow]
    have hv : (0 : ℚ) + a * (0 + g * 0 - 0) = 0 := by ring
    rw [hv, QRow.set_zero_zeroRow]
  · exact update_q_findRow_ne a g q s t act 0 hne

/-- Witness for C10 on the empty table with `a = 2`, `g = 3`, action Hold. -/
theorem update_q_zero_fixed_point_witness :
    (findRow ([] : QTable) ((0 : ℚ), (0 : ℚ))).getD zeroRow = zeroRow ∧
    ((1 : ℚ), (0 : ℚ)) ≠ ((0 : ℚ), (0 : ℚ)) ∧
    (findRow (update_q 2 3 [] ((0 : ℚ), (0 : ℚ)) Action.Hold 0)
          ((0 : ℚ), (0 : ℚ)) =
        some zeroRow ∧
      findRow (update_q 2 3 [] ((0 : ℚ), (0 : ℚ)) Action.Hold 0)
          ((1 : ℚ), (0 : ℚ)) =
        findRow ([] : QTable) ((1 : ℚ), (0 : ℚ))) :=
  ⟨rfl, by norm_num,
    update_q_zero_fixed_point 2 3 [] ((0 : ℚ), (0 : ℚ)) ((1 : ℚ), (0 : ℚ))
      Action.Hold rfl (by norm_num)⟩

end StockSage
